import Mathlib

/-!
Shallow embedding of `src/core/components/keep-alive.js` (the Vue 2 keep-alive
component): the cache store, LRU eviction, include/exclude pattern matching,
key resolution, and the render/lifecycle hooks, together with theorems about
the specified behaviour.

Modelling conventions:
* A component instance is identified by a `Nat` id; "invoking `$destroy()` on
  an instance" is recorded by appending the instance id to a destroy log.
* The JS object `cache` (string-keyed, entries removed by writing `null`) is an
  association list `List (String × Option CacheEntry)`; `cache[key] = null`
  keeps the key present with value `none`, exactly as in JS, and `for key in
  cache` iterates the keys in insertion order.
* JS string truthiness (`""` is falsy) is modelled explicitly by `strTruthy`.
* Regular expressions are modelled as boolean predicates on strings
  (`pattern.test(name)` is function application).
* `this._vnode` (the keep-alive's currently rendered child vnode) is host
  state, passed to each operation as an `Option VNode` argument.
-/

namespace KeepAlive

/-- A component instance id (`componentInstance` in the source). -/
abbrev Component := Nat

/-- The `componentOptions` attached to a component vnode: the constructor's
`cid`, the constructor's declared `options.name`, and the tag the component was
registered under. -/
structure ComponentOptions where
  ctorCid : Nat
  ctorName : Option String
  tag : Option String
  deriving Repr, DecidableEq

/-- A render-tree node descriptor, restricted to the fields keep-alive reads
and writes: explicit `key`, the vnode `tag`, `componentOptions`,
`componentInstance`, and the `data.keepAlive` flag. -/
structure VNode where
  key : Option String
  tag : Option String
  componentOptions : Option ComponentOptions
  componentInstance : Component
  keepAlive : Bool
  deriving Repr, DecidableEq

/-- A cache entry, as built by `cacheVNode`: declared name, vnode tag, and the
owned component instance. -/
structure CacheEntry where
  name : Option String
  tag : Option String
  componentInstance : Component
  deriving Repr, DecidableEq

/-- The JS `cache` object: string keys in insertion order, each mapped to an
entry or to `null` (`none`) after removal. -/
abbrev Cache := List (String × Option CacheEntry)

/-- JS truthiness of an optional string: `null`/`undefined` and `""` are
falsy. -/
def strTruthy : Option String → Bool
  | none => false
  | some s => s != ""

/-- JS `a || b` on optional strings. -/
def jsOrStr (a b : Option String) : Option String :=
  if strTruthy a then a else b

/-- Source `getComponentName(opts)`: `opts && (opts.Ctor.options.name || opts.tag)`. -/
def getComponentName : Option ComponentOptions → Option String
  | none => none
  | some o => jsOrStr o.ctorName o.tag

/-- An include/exclude pattern: an array of names, a comma-delimited string, a
regular expression (modelled as a predicate), or any other value. -/
inductive Pattern where
  | arr (l : List String)
  | str (s : String)
  | regex (r : String → Bool)
  | other

/-- JS truthiness of a pattern value (only the empty string is falsy among the
supported shapes). -/
def patternTruthy : Pattern → Bool
  | .str s => s != ""
  | _ => true

/-- JS `String.prototype.split` with a single-character separator, on the
character list: `"a,b" → ["a","b"]`, `"" → [""]`, `"a," → ["a",""]`. -/
def splitChars (sep : Char) : List Char → List (List Char)
  | [] => [[]]
  | c :: rest =>
    match splitChars sep rest with
    | [] => if c = sep then [[], []] else [[c]]
    | h :: t => if c = sep then [] :: h :: t else (c :: h) :: t

/-- JS `s.split(sep)` for a one-character separator. -/
def jsSplit (s : String) (sep : Char) : List String :=
  (splitChars sep s.data).map (fun cs => { data := cs })

/-- Source `matchesPattern(pattern, name)`: array membership, membership among the
comma-separated parts of a string (JS `pattern.split(',')`), regex test, or
`false` for any other shape. -/
def matchesPattern : Pattern → String → Bool
  | .arr l, name => l.contains name
  | .str s, name => (jsSplit s ',').contains name
  | .regex r, name => r name
  | .other, _ => false

/-- The regular expression `/^x/` ("starts with the character `x`"), used by
the pattern-matcher examples. -/
def startsWithX (s : String) : Bool :=
  match s.data with
  | c :: _ => c = 'x'
  | [] => false

/-- Lookup in the JS `cache` object: `cache[key]`, flattening an explicit
`null` and an absent key to `none` (both are "not present"). -/
def cacheGet : Cache → String → Option CacheEntry
  | [], _ => none
  | p :: rest, k => if p.1 = k then p.2 else cacheGet rest k

/-- Assignment `cache[key] = v` on the JS object: overwrite in place if the
key is present, otherwise append it (insertion order). -/
def cacheSet (c : Cache) (k : String) (v : Option CacheEntry) : Cache :=
  if c.any (fun p => p.1 == k) then
    c.map (fun p => if p.1 = k then (k, v) else p)
  else
    c ++ [(k, v)]

/-- The destruction guard in `pruneCacheEntry`:
`!current || entry.tag !== current.tag`. -/
def destroyGuard (e : CacheEntry) (current : Option VNode) : Bool :=
  match current with
  | none => true
  | some c => e.tag != c.tag

/-- Source `pruneCacheEntry(cache, key, keys, current)`: destroy the entry's
instance when the guard allows, write `null` into the cache, and remove the
key from `keys`. Returns the new cache, the new key sequence, and the list of
destroy calls issued. -/
def pruneCacheEntry (cache : Cache) (key : String) (keys : List String)
    (current : Option VNode) : Cache × List String × List Component :=
  let entry := cacheGet cache key
  let destroys : List Component :=
    match entry with
    | some e => if destroyGuard e current then [e.componentInstance] else []
    | none => []
  (cacheSet cache key none, keys.erase key, destroys)

/-- The test `name && !filter(name)` inside the `pruneCache` loop: the entry
has a truthy declared name and the name fails the filter. -/
def pruneTarget (filter : String → Bool) (e : CacheEntry) : Bool :=
  match e.name with
  | some n => n != "" && !filter n
  | none => false

/-- One iteration of the `for key in cache` loop of `pruneCache`: skip `null`
entries and entries whose name is falsy, prune when the name fails the
filter. -/
def pruneCacheStep (filter : String → Bool) (current : Option VNode)
    (acc : Cache × List String × List Component) (key : String) :
    Cache × List String × List Component :=
  match cacheGet acc.1 key with
  | none => acc
  | some e =>
    if pruneTarget filter e then
      let r := pruneCacheEntry acc.1 key acc.2.1 current
      (r.1, r.2.1, acc.2.2 ++ r.2.2)
    else acc

/-- The keep-alive component's own state: the cache object, the recency-ordered
key sequence, the pending-cache slot (`vnodeToCache`/`keyToCache`), plus the
log of destroy calls issued so far. -/
structure KAState where
  cache : Cache
  keys : List String
  vnodeToCache : Option VNode
  keyToCache : String
  destroyedLog : List Component
  deriving Repr, DecidableEq

/-- The state after the `created` hook: empty cache, empty key sequence, no
pending slot. -/
def initialState : KAState :=
  { cache := [], keys := [], vnodeToCache := none, keyToCache := "",
    destroyedLog := [] }

/-- Source `pruneCache(keepAliveInstance, filter)`: iterate over the cache's
keys (a snapshot, as `for...in` over an object whose keys are never deleted)
and prune every live entry whose truthy name fails the filter. -/
def pruneCache (filter : String → Bool) (current : Option VNode)
    (st : KAState) : KAState :=
  let r := (st.cache.map Prod.fst).foldl (pruneCacheStep filter current)
    (st.cache, st.keys, [])
  { st with
    cache := r.1,
    keys := r.2.1,
    destroyedLog := st.destroyedLog ++ r.2.2 }

/-- The `include` watcher callback: `pruneCache(this, name => matchesPattern(val, name))`. -/
def onIncludeChanged (val : Pattern) (current : Option VNode)
    (st : KAState) : KAState :=
  pruneCache (fun name => matchesPattern val name) current st

/-- The `exclude` watcher callback: `pruneCache(this, name => !matchesPattern(val, name))`. -/
def onExcludeChanged (val : Pattern) (current : Option VNode)
    (st : KAState) : KAState :=
  pruneCache (fun name => !matchesPattern val name) current st

/-- The capacity test `this.max && keys.length > parseInt(this.max)`; a `max`
of `0` is falsy in JS, so it disables the bound rather than making it zero. -/
def maxExceeded (maxN : Option Nat) (len : Nat) : Bool :=
  match maxN with
  | none => false
  | some m => m != 0 && len > m

/-- Source method `cacheVNode()`: if a pending vnode exists, admit it into the
cache under `keyToCache`, push the key as most recently used, run the capacity
check (pruning the oldest key `keys[0]` against `this._vnode`), and clear the
pending slot. -/
def cacheVNode (maxN : Option Nat) (current : Option VNode)
    (st : KAState) : KAState :=
  match st.vnodeToCache with
  | none => st
  | some v =>
    let entry : CacheEntry :=
      { name := getComponentName v.componentOptions, tag := v.tag,
        componentInstance := v.componentInstance }
    let cache1 := cacheSet st.cache st.keyToCache (some entry)
    let keys1 := st.keys ++ [st.keyToCache]
    if maxExceeded maxN keys1.length then
      let r := pruneCacheEntry cache1 (keys1.headD "") keys1 current
      { cache := r.1, keys := r.2.1, vnodeToCache := none,
        keyToCache := st.keyToCache,
        destroyedLog := st.destroyedLog ++ r.2.2 }
    else
      { cache := cache1, keys := keys1, vnodeToCache := none,
        keyToCache := st.keyToCache, destroyedLog := st.destroyedLog }

/-- One iteration of the `for key in this.cache` loop of the `destroyed`
hook: `pruneCacheEntry(this.cache, key, this.keys)` with no `current` vnode. -/
def destroyedStep (acc : Cache × List String × List Component)
    (key : String) : Cache × List String × List Component :=
  let r := pruneCacheEntry acc.1 key acc.2.1 none
  (r.1, r.2.1, acc.2.2 ++ r.2.2)

/-- Source `destroyed()` hook: prune every key of the cache unconditionally
(no `current` vnode is passed, so every live entry is destroyed). -/
def destroyedHook (st : KAState) : KAState :=
  let r := (st.cache.map Prod.fst).foldl destroyedStep (st.cache, st.keys, [])
  { st with
    cache := r.1,
    keys := r.2.1,
    destroyedLog := st.destroyedLog ++ r.2.2 }

/-- The cache-key computation in `render`: the vnode's explicit key verbatim
when present, otherwise `Ctor.cid` concatenated with
`'::' + componentOptions.tag` when the tag is truthy, else the cid alone. -/
def resolveKey (v : VNode) (co : ComponentOptions) : String :=
  match v.key with
  | some k => k
  | none =>
    toString co.ctorCid ++
      (match co.tag with
       | some t => if t != "" then "::" ++ t else ""
       | none => "")

/-- The filter test in `render`:
`(include && (!name || !matchesPattern(include, name))) || (exclude && name && matchesPattern(exclude, name))`,
with JS truthiness of the pattern values and of the name. -/
def filterBlocked (incl excl : Option Pattern) (name : Option String) : Bool :=
  (match incl with
   | some p => patternTruthy p && (!strTruthy name || !matchesPattern p (name.getD ""))
   | none => false)
  ||
  (match excl with
   | some p => patternTruthy p && strTruthy name && matchesPattern p (name.getD "")
   | none => false)

/-- Source `render()`, taking the first component child of the slot as the
candidate. On a component candidate: apply the include/exclude filters
(returning the candidate untouched when blocked); otherwise resolve the cache
key; on a hit substitute the cached instance and refresh the key's recency; on
a miss record the pending-cache slot; in both cases set `data.keepAlive`.
Returns the new state and the returned vnode. -/
def render (incl excl : Option Pattern) (st : KAState)
    (vnode : Option VNode) : KAState × Option VNode :=
  match vnode with
  | none => (st, none)
  | some v =>
    match v.componentOptions with
    | none => (st, some v)
    | some co =>
      let name := getComponentName (some co)
      if filterBlocked incl excl name then
        (st, some v)
      else
        let key := resolveKey v co
        match cacheGet st.cache key with
        | some e =>
          let v2 := { v with componentInstance := e.componentInstance,
                             keepAlive := true }
          ({ st with keys := (st.keys.erase key) ++ [key] }, some v2)
        | none =>
          let v2 := { v with keepAlive := true }
          ({ st with vnodeToCache := some v2, keyToCache := key }, some v2)

/-- One full host cycle: a render pass followed by the `mounted`/`updated`
lifecycle signal, which invokes `cacheVNode` with `this._vnode` being the
vnode the render pass just returned. -/
def renderThenCache (incl excl : Option Pattern) (maxN : Option Nat)
    (st : KAState) (vnode : Option VNode) : KAState :=
  let r := render incl excl st vnode
  cacheVNode maxN r.2 r.1

/-- The structural invariant of reachable keep-alive states between host
cycles: the key sequence is duplicate-free and holds exactly the live keys,
the live count is within the bound, and no pending slot is outstanding. -/
def GoodState (m : Nat) (st : KAState) : Prop :=
  st.keys.Nodup ∧ (∀ k, k ∈ st.keys ↔ (cacheGet st.cache k).isSome) ∧
    st.keys.length ≤ m ∧ st.vnodeToCache = none

/-! ### Concrete scenario inputs -/

/-- A cached entry whose instance is the one currently on screen but whose
recorded tag differs from the current vnode's tag (reachable, e.g., when an
explicit key is reused across differently tagged components). -/
def activeEntry : CacheEntry :=
  { name := some "A", tag := some "tA", componentInstance := 7 }

/-- A currently rendered vnode holding the same instance as `activeEntry`
under a different tag. -/
def activeCurrent : VNode :=
  { key := some "k", tag := some "tB",
    componentOptions := some { ctorCid := 9, ctorName := some "B", tag := some "b" },
    componentInstance := 7, keepAlive := true }

/-- LRU scenario component A (cid 1, instance 11). -/
def lruVA : VNode :=
  { key := none, tag := some "tag-A",
    componentOptions := some { ctorCid := 1, ctorName := some "A", tag := none },
    componentInstance := 11, keepAlive := false }

/-- LRU scenario component B (cid 2, instance 12). -/
def lruVB : VNode :=
  { key := none, tag := some "tag-B",
    componentOptions := some { ctorCid := 2, ctorName := some "B", tag := none },
    componentInstance := 12, keepAlive := false }

/-- LRU scenario component C (cid 3, instance 13). -/
def lruVC : VNode :=
  { key := none, tag := some "tag-C",
    componentOptions := some { ctorCid := 3, ctorName := some "C", tag := none },
    componentInstance := 13, keepAlive := false }

/-- LRU scenario component D (cid 4, instance 14). -/
def lruVD : VNode :=
  { key := none, tag := some "tag-D",
    componentOptions := some { ctorCid := 4, ctorName := some "D", tag := none },
    componentInstance := 14, keepAlive := false }

/-- The state after `admit(A)`, `admit(B)`, `admit(C)`, `lookup(A)` with
`max = 3`: four host cycles (the fourth is a cache hit on A). -/
def lruPre : KAState :=
  [some lruVA, some lruVB, some lruVC, some lruVA].foldl
    (renderThenCache none none (some 3)) initialState

/-- The state after additionally admitting `D`, which overflows `max = 3`. -/
def lruRun : KAState :=
  renderThenCache none none (some 3) lruPre (some lruVD)

/-- Filter scenario entry named "A" (instance 21). -/
def entA : CacheEntry := { name := some "A", tag := some "tA", componentInstance := 21 }

/-- Filter scenario entry named "B" (instance 22). -/
def entB : CacheEntry := { name := some "B", tag := some "tB", componentInstance := 22 }

/-- Filter scenario entry named "C" (instance 23). -/
def entC : CacheEntry := { name := some "C", tag := some "tC", componentInstance := 23 }

/-- A state holding live entries named "A", "B", "C". -/
def filterState : KAState :=
  { cache := [("a", some entA), ("b", some entB), ("c", some entC)],
    keys := ["a", "b", "c"], vnodeToCache := none, keyToCache := "",
    destroyedLog := [] }

/-- A cache entry with no declared name (instance 31). -/
def entU : CacheEntry := { name := none, tag := some "t", componentInstance := 31 }

/-- A state holding a single live entry with no declared name. -/
def unnamedState : KAState :=
  { cache := [("u", some entU)], keys := ["u"], vnodeToCache := none,
    keyToCache := "", destroyedLog := [] }

/-! ### Helper lemmas about the cache store -/

/-- Lookup of a key other than the one just overwritten in place is
unchanged. -/
theorem cacheGet_mapSet_ne (c : Cache) (k k' : String) (v : Option CacheEntry)
    (h : k ≠ k') :
    cacheGet (c.map (fun p => if p.1 = k' then (k', v) else p)) k =
      cacheGet c k := by
  induction c with
  | nil => rfl
  | cons p rest ih =>
    obtain ⟨a, b⟩ := p
    by_cases ha : a = k'
    · simp only [List.map_cons, ha, if_pos rfl, cacheGet]
      rw [if_neg (by simpa [ha] using Ne.symm h), if_neg (by simpa [ha] using Ne.symm h)]
      exact ih
    · simp only [List.map_cons, if_neg ha, cacheGet]
      by_cases hk : a = k
      · simp [hk]
      · rw [if_neg hk, if_neg hk]
        exact ih

/-- Lookup of a key other than the one just appended is unchanged. -/
theorem cacheGet_append_ne (c : Cache) (k k' : String) (v : Option CacheEntry)
    (h : k ≠ k') : cacheGet (c ++ [(k', v)]) k = cacheGet c k := by
  induction c with
  | nil => simp [cacheGet, Ne.symm h]
  | cons p rest ih =>
    obtain ⟨a, b⟩ := p
    by_cases hk : a = k
    · simp [cacheGet, hk]
    · simp only [List.cons_append, cacheGet, if_neg hk]
      exact ih

/-- Looking up a key other than the one just assigned is unchanged. -/
theorem cacheGet_cacheSet_ne (c : Cache) (k k' : String) (v : Option CacheEntry)
    (h : k ≠ k') : cacheGet (cacheSet c k' v) k = cacheGet c k := by
  unfold cacheSet
  split
  · exact cacheGet_mapSet_ne c k k' v h
  · exact cacheGet_append_ne c k k' v h

/-- Looking up the key just assigned returns the assigned value. -/
theorem cacheGet_cacheSet_self (c : Cache) (k : String) (v : Option CacheEntry) :
    cacheGet (cacheSet c k v) k = v := by
  unfold cacheSet
  split
  · next hany =>
    induction c with
    | nil => simp at hany
    | cons p rest ih =>
      obtain ⟨a, b⟩ := p
      by_cases ha : a = k
      · simp [cacheGet, ha]
      · have h1 : (a == k) = false := by simp [ha]
        simp only [List.any_cons, h1, Bool.false_or] at hany
        simp only [List.map_cons, if_neg ha, cacheGet, if_neg ha]
        exact ih hany
  · next hany =>
    induction c with
    | nil => simp [cacheGet]
    | cons p rest ih =>
      obtain ⟨a, b⟩ := p
      have ha : ¬ a = k := by
        intro hh
        exact hany (by simp [List.any_cons, hh])
      simp only [List.cons_append, cacheGet, if_neg ha]
      refine ih (fun hh => hany ?_)
      simp only [List.any_cons, hh, Bool.or_true]

/-- A key with a live lookup occurs among the cache object's keys. -/
theorem mem_keys_of_cacheGet (c : Cache) (k : String) (e : CacheEntry)
    (h : cacheGet c k = some e) : k ∈ c.map Prod.fst := by
  induction c with
  | nil => simp [cacheGet] at h
  | cons p rest ih =>
    obtain ⟨a, b⟩ := p
    by_cases ha : a = k
    · simp [ha]
    · simp only [cacheGet, if_neg ha] at h
      simp only [List.map_cons]
      exact List.mem_cons_of_mem _ (ih h)

/-! ### Lemmas about the pruning fold -/

/-- Equation: a prune step at an absent or nulled key is a no-op. -/
theorem pruneCacheStep_eq_none (f : String → Bool) (cur : Option VNode)
    (acc : Cache × List String × List Component) (key : String)
    (h : cacheGet acc.1 key = none) : pruneCacheStep f cur acc key = acc := by
  unfold pruneCacheStep
  rw [h]

/-- Equation: a prune step at a live key tests `pruneTarget` and prunes via
`pruneCacheEntry` when it holds. -/
theorem pruneCacheStep_eq_some (f : String → Bool) (cur : Option VNode)
    (acc : Cache × List String × List Component) (key : String)
    (e : CacheEntry) (h : cacheGet acc.1 key = some e) :
    pruneCacheStep f cur acc key =
      if pruneTarget f e then
        (cacheSet acc.1 key none, acc.2.1.erase key,
          acc.2.2 ++ (pruneCacheEntry acc.1 key acc.2.1 cur).2.2)
      else acc := by
  unfold pruneCacheStep
  rw [h]
  rfl

/-- A prune step leaves the cache unchanged at every key other than the one it
visits. -/
theorem pruneCacheStep_cacheGet_ne (f : String → Bool) (cur : Option VNode)
    (acc : Cache × List String × List Component) (key k : String)
    (h : k ≠ key) :
    cacheGet (pruneCacheStep f cur acc key).1 k = cacheGet acc.1 k := by
  cases hg : cacheGet acc.1 key with
  | none => rw [pruneCacheStep_eq_none f cur acc key hg]
  | some e =>
    rw [pruneCacheStep_eq_some f cur acc key e hg]
    by_cases ht : pruneTarget f e
    · rw [if_pos ht]
      exact cacheGet_cacheSet_ne _ _ _ _ h
    · rw [if_neg ht]

/-- A prune step keeps every key other than the one it visits in the key
sequence. -/
theorem pruneCacheStep_mem_keys (f : String → Bool) (cur : Option VNode)
    (acc : Cache × List String × List Component) (key k : String)
    (h : k ≠ key) (hm : k ∈ acc.2.1) : k ∈ (pruneCacheStep f cur acc key).2.1 := by
  cases hg : cacheGet acc.1 key with
  | none => rw [pruneCacheStep_eq_none f cur acc key hg]; exact hm
  | some e =>
    rw [pruneCacheStep_eq_some f cur acc key e hg]
    by_cases ht : pruneTarget f e
    · rw [if_pos ht]
      exact (List.mem_erase_of_ne h).2 hm
    · rw [if_neg ht]; exact hm

/-- A prune step visiting a live entry that is not a prune target is a no-op. -/
theorem pruneCacheStep_keep (f : String → Bool) (cur : Option VNode)
    (acc : Cache × List String × List Component) (key : String)
    (e : CacheEntry) (hg : cacheGet acc.1 key = some e)
    (ht : pruneTarget f e = false) : pruneCacheStep f cur acc key = acc := by
  rw [pruneCacheStep_eq_some f cur acc key e hg, ht]
  simp

/-- A prune step visiting a live prune-target entry nulls it out and erases its
key. -/
theorem pruneCacheStep_prune (f : String → Bool) (cur : Option VNode)
    (acc : Cache × List String × List Component) (key : String)
    (e : CacheEntry) (hg : cacheGet acc.1 key = some e)
    (ht : pruneTarget f e = true) :
    (pruneCacheStep f cur acc key).1 = cacheSet acc.1 key none ∧
      (pruneCacheStep f cur acc key).2.1 = acc.2.1.erase key := by
  rw [pruneCacheStep_eq_some f cur acc key e hg, ht]
  simp

/-- A key that is not present stays not present through a prune step. -/
theorem pruneCacheStep_none (f : String → Bool) (cur : Option VNode)
    (acc : Cache × List String × List Component) (key k : String)
    (h : cacheGet acc.1 k = none) :
    cacheGet (pruneCacheStep f cur acc key).1 k = none := by
  by_cases hk : k = key
  · subst hk
    rw [pruneCacheStep_eq_none f cur acc k h]
    exact h
  · rw [pruneCacheStep_cacheGet_ne f cur acc key k hk]
    exact h

/-- A key that is not present stays not present through the whole prune fold. -/
theorem pruneFold_none (f : String → Bool) (cur : Option VNode)
    (todo : List String) (acc : Cache × List String × List Component)
    (k : String) (h : cacheGet acc.1 k = none) :
    cacheGet (todo.foldl (pruneCacheStep f cur) acc).1 k = none := by
  induction todo generalizing acc with
  | nil => exact h
  | cons key rest ih =>
    exact ih _ (pruneCacheStep_none f cur acc key k h)

/-- The prune fold preserves every live entry that is not a prune target,
both in the store and in the key sequence. -/
theorem pruneFold_keep (f : String → Bool) (cur : Option VNode)
    (todo : List String) (acc : Cache × List String × List Component)
    (k : String) (e : CacheEntry) (hg : cacheGet acc.1 k = some e)
    (ht : pruneTarget f e = false) :
    cacheGet (todo.foldl (pruneCacheStep f cur) acc).1 k = some e ∧
      (k ∈ acc.2.1 → k ∈ (todo.foldl (pruneCacheStep f cur) acc).2.1) := by
  induction todo generalizing acc with
  | nil => exact ⟨hg, fun hm => hm⟩
  | cons key rest ih =>
    by_cases hk : k = key
    · subst hk
      rw [List.foldl_cons, pruneCacheStep_keep f cur acc k e hg ht]
      exact ih acc hg
    · have h1 : cacheGet (pruneCacheStep f cur acc key).1 k = some e := by
        rw [pruneCacheStep_cacheGet_ne f cur acc key k hk]; exact hg
      rw [List.foldl_cons]
      refine ⟨(ih _ h1).1, fun hm => (ih _ h1).2 ?_⟩
      exact pruneCacheStep_mem_keys f cur acc key k hk hm

/-- The prune fold removes every live prune-target entry whose key it visits. -/
theorem pruneFold_prune (f : String → Bool) (cur : Option VNode)
    (todo : List String) (acc : Cache × List String × List Component)
    (k : String) (e : CacheEntry) (hg : cacheGet acc.1 k = some e)
    (ht : pruneTarget f e = true) (hm : k ∈ todo) :
    cacheGet (todo.foldl (pruneCacheStep f cur) acc).1 k = none := by
  induction todo generalizing acc with
  | nil => exact absurd hm (List.not_mem_nil k)
  | cons key rest ih =>
    by_cases hk : k = key
    · subst hk
      rw [List.foldl_cons]
      refine pruneFold_none f cur rest _ k ?_
      rw [(pruneCacheStep_prune f cur acc k e hg ht).1]
      exact cacheGet_cacheSet_self _ _ _
    · have h1 : cacheGet (pruneCacheStep f cur acc key).1 k = some e := by
        rw [pruneCacheStep_cacheGet_ne f cur acc key k hk]; exact hg
      rw [List.foldl_cons]
      exact ih _ h1 ((List.mem_cons.mp hm).resolve_left hk)

/-! ### Lemmas about the teardown fold -/

/-- Equation: one teardown step nulls the visited key, erases it from the key
sequence, and destroys its instance when the entry is live (the guard is
always satisfied because no `current` vnode is passed). -/
theorem destroyedStep_eq (acc : Cache × List String × List Component)
    (key : String) :
    destroyedStep acc key =
      (cacheSet acc.1 key none, acc.2.1.erase key,
        acc.2.2 ++ ((cacheGet acc.1 key).map
          (fun e => e.componentInstance)).toList) := by
  unfold destroyedStep pruneCacheEntry
  cases cacheGet acc.1 key with
  | none => rfl
  | some e => rfl

/-- The key-sequence component of the teardown fold is an iterated erase. -/
theorem destroyedFold_keys (todo : List String)
    (acc : Cache × List String × List Component) :
    (todo.foldl destroyedStep acc).2.1 =
      todo.foldl (fun l key => l.erase key) acc.2.1 := by
  induction todo generalizing acc with
  | nil => rfl
  | cons key rest ih =>
    rw [List.foldl_cons, List.foldl_cons, destroyedStep_eq]
    exact ih _

/-- Iteratively erasing a superset of a duplicate-free list empties it. -/
theorem foldl_erase_eq_nil (todo : List String) (l : List String)
    (hd : l.Nodup) (hsub : ∀ x ∈ l, x ∈ todo) :
    todo.foldl (fun l key => l.erase key) l = [] := by
  induction todo generalizing l with
  | nil =>
    cases l with
    | nil => rfl
    | cons a t => exact absurd (hsub a (List.mem_cons_self a t)) (List.not_mem_nil a)
  | cons key rest ih =>
    rw [List.foldl_cons]
    refine ih (l.erase key) (hd.erase key) (fun x hx => ?_)
    have h1 := (hd.mem_erase_iff).mp hx
    exact (List.mem_cons.mp (hsub x h1.2)).resolve_left (by simpa using h1.1)

/-- After the teardown fold visits every key that has a live entry, no key is
present any more. -/
theorem destroyedFold_cache (todo : List String)
    (acc : Cache × List String × List Component)
    (hcover : ∀ k e, cacheGet acc.1 k = some e → k ∈ todo) (k : String) :
    cacheGet (todo.foldl destroyedStep acc).1 k = none := by
  induction todo generalizing acc with
  | nil =>
    cases hg : cacheGet acc.1 k with
    | none => exact hg
    | some e => exact absurd (hcover k e hg) (List.not_mem_nil k)
  | cons key rest ih =>
    rw [List.foldl_cons]
    refine ih _ (fun k' e' hg' => ?_)
    rw [destroyedStep_eq] at hg'
    by_cases hk : k' = key
    · subst hk
      rw [cacheGet_cacheSet_self] at hg'
      exact absurd hg' (by simp)
    · rw [cacheGet_cacheSet_ne _ _ _ _ hk] at hg'
      exact (List.mem_cons.mp (hcover k' e' hg')).resolve_left hk

/-- The destroy calls issued by the teardown fold over duplicate-free keys are
exactly one per live entry, in key order. -/
theorem destroyedFold_log (todo : List String)
    (acc : Cache × List String × List Component) (hd : todo.Nodup) :
    (todo.foldl destroyedStep acc).2.2 =
      acc.2.2 ++ todo.filterMap
        (fun k => (cacheGet acc.1 k).map (fun e => e.componentInstance)) := by
  induction todo generalizing acc with
  | nil => simp
  | cons key rest ih =>
    have hkey : key ∉ rest := by
      have := List.nodup_cons.mp hd
      exact this.1
    have hrest : rest.Nodup := (List.nodup_cons.mp hd).2
    rw [List.foldl_cons, ih _ hrest, destroyedStep_eq]
    have hcongr : rest.filterMap
        (fun k => (cacheGet (cacheSet acc.1 key none) k).map
          (fun e => e.componentInstance)) =
        rest.filterMap
          (fun k => (cacheGet acc.1 k).map (fun e => e.componentInstance)) := by
      refine List.filterMap_congr (fun x hx => ?_)
      have hne : x ≠ key := fun hh => hkey (hh ▸ hx)
      rw [cacheGet_cacheSet_ne _ _ _ _ hne]
    rw [hcongr, List.filterMap_cons]
    cases hg : cacheGet acc.1 key with
    | none => simp [List.append_assoc]
    | some e => simp [List.append_assoc]

/-! ### Equation lemmas for the render pass and the admit step -/

/-- Equation: a render pass with no candidate returns the state unchanged. -/
theorem render_eq_no_vnode (incl excl : Option Pattern) (st : KAState) :
    render incl excl st none = (st, none) := rfl

/-- Equation: a candidate without component options passes through unchanged. -/
theorem render_eq_no_co (incl excl : Option Pattern) (st : KAState) (v : VNode)
    (h : v.componentOptions = none) :
    render incl excl st (some v) = (st, some v) := by
  obtain ⟨vk, vt, vco, vi, vka⟩ := v
  dsimp only at h
  subst h
  rfl

/-- Equation: a filter-blocked candidate passes through unchanged. -/
theorem render_eq_blocked (incl excl : Option Pattern) (st : KAState) (v : VNode)
    (co : ComponentOptions) (hco : v.componentOptions = some co)
    (hb : filterBlocked incl excl (getComponentName (some co)) = true) :
    render incl excl st (some v) = (st, some v) := by
  obtain ⟨vk, vt, vco, vi, vka⟩ := v
  dsimp only at hco
  subst hco
  unfold render
  dsimp only
  rw [hb]
  simp

/-- Equation: a cache hit substitutes the cached instance, refreshes the key
to most-recently-used, and sets the keep-alive flag. -/
theorem render_eq_hit (incl excl : Option Pattern) (st : KAState) (v : VNode)
    (co : ComponentOptions) (e : CacheEntry) (hco : v.componentOptions = some co)
    (hb : filterBlocked incl excl (getComponentName (some co)) = false)
    (hg : cacheGet st.cache (resolveKey v co) = some e) :
    render incl excl st (some v) =
      ({ st with keys := (st.keys.erase (resolveKey v co)) ++ [resolveKey v co] },
        some { v with componentInstance := e.componentInstance, keepAlive := true }) := by
  obtain ⟨vk, vt, vco, vi, vka⟩ := v
  dsimp only at hco
  subst hco
  unfold render
  dsimp only
  rw [hb]
  rw [hg]
  simp

/-- Equation: a cache miss records the pending-cache slot and sets the
keep-alive flag, touching neither the store nor the key sequence. -/
theorem render_eq_miss (incl excl : Option Pattern) (st : KAState) (v : VNode)
    (co : ComponentOptions) (hco : v.componentOptions = some co)
    (hb : filterBlocked incl excl (getComponentName (some co)) = false)
    (hg : cacheGet st.cache (resolveKey v co) = none) :
    render incl excl st (some v) =
      ({ st with vnodeToCache := some { v with keepAlive := true },
                 keyToCache := resolveKey v co },
        some { v with keepAlive := true }) := by
  obtain ⟨vk, vt, vco, vi, vka⟩ := v
  dsimp only at hco
  subst hco
  unfold render
  dsimp only
  rw [hb]
  rw [hg]
  simp

/-- Equation: the admit step with no pending slot is a no-op. -/
theorem cacheVNode_eq_no_pending (maxN : Option Nat) (cur : Option VNode)
    (st : KAState) (h : st.vnodeToCache = none) :
    cacheVNode maxN cur st = st := by
  unfold cacheVNode
  rw [h]

/-! ### Claim theorems -/

/-- C8: `matchesPattern` returns true iff the name is an element of a list
pattern, among the comma-separated parts of a string pattern, or accepted by a
regex pattern; any other shape yields false; and the four concrete table
entries hold (the regex `^x` being the predicate "starts with `x`"). -/
theorem matchesPattern_spec :
    (∀ (l : List String) (n : String), matchesPattern (.arr l) n = true ↔ n ∈ l) ∧
    (∀ (s n : String), matchesPattern (.str s) n = true ↔ n ∈ jsSplit s ',') ∧
    (∀ (r : String → Bool) (n : String), matchesPattern (.regex r) n = r n) ∧
    (∀ n : String, matchesPattern .other n = false) ∧
    matchesPattern (.arr ["a", "b"]) "a" = true ∧
    matchesPattern (.str "a,b") "c" = false ∧
    matchesPattern (.regex startsWithX) "xyz" = true ∧
    matchesPattern (.regex startsWithX) "yz" = false := by
  refine ⟨fun l n => ?_, fun s n => ?_, fun r n => rfl, fun n => rfl,
    by decide, by decide, by decide, by decide⟩
  · simp [matchesPattern, List.contains, List.elem_iff]
  · simp [matchesPattern, List.contains, List.elem_iff]

/-- C8 witness: the characterisation applied at the concrete list pattern. -/
theorem matchesPattern_spec_witness : "a" ∈ ["a", "b"] :=
  (matchesPattern_spec.1 ["a", "b"] "a").mp (by decide)

/-- An append on the left of a string is cancellable. -/
theorem string_append_left_cancel {s a b : String} (h : s ++ a = s ++ b) :
    a = b := by
  apply String.ext
  have h2 := congrArg String.data h
  simp only [String.data_append] at h2
  exact List.append_cancel_left h2

/-- C4: the explicit key is returned verbatim when present; otherwise the key
is the constructor id, extended with `"::" ++ tag` exactly when a tag is
present; hence two keyless candidates with the same constructor id but
different tags get different cache keys. -/
theorem resolveKey_spec :
    (∀ (v : VNode) (co : ComponentOptions) (k : String),
      v.key = some k → resolveKey v co = k) ∧
    (∀ (v : VNode) (co : ComponentOptions) (t : String),
      v.key = none → co.tag = some t → t ≠ "" →
      resolveKey v co = toString co.ctorCid ++ "::" ++ t) ∧
    (∀ (v : VNode) (co : ComponentOptions),
      v.key = none → co.tag = none → resolveKey v co = toString co.ctorCid) ∧
    (∀ (v1 v2 : VNode) (co1 co2 : ComponentOptions) (t1 t2 : String),
      v1.key = none → v2.key = none → co1.ctorCid = co2.ctorCid →
      co1.tag = some t1 → co2.tag = some t2 → t1 ≠ t2 →
      resolveKey v1 co1 ≠ resolveKey v2 co2) := by
  have hkeyT : ∀ (v : VNode) (co : ComponentOptions) (t : String),
      v.key = none → co.tag = some t → t ≠ "" →
      resolveKey v co = toString co.ctorCid ++ "::" ++ t := by
    intro v co t hk ht htne
    unfold resolveKey
    rw [hk, ht]
    dsimp only
    have hb : (t != "") = true := by simpa using htne
    rw [hb]
    simp [String.append_assoc]
  have hkeyE : ∀ (v : VNode) (co : ComponentOptions),
      v.key = none → co.tag = some "" →
      resolveKey v co = toString co.ctorCid := by
    intro v co hk ht
    unfold resolveKey
    rw [hk, ht]
    dsimp only
    simp
  refine ⟨fun v co k hk => ?_, fun v co t hk ht htne => hkeyT v co t hk ht htne,
    fun v co hk ht => ?_, fun v1 v2 co1 co2 t1 t2 hk1 hk2 hcid ht1 ht2 hne => ?_⟩
  · unfold resolveKey
    rw [hk]
  · unfold resolveKey
    rw [hk, ht]
    simp
  · have e2 : ("::" : String).length = 2 := rfl
    by_cases h1 : t1 = ""
    · subst h1
      have h2 : t2 ≠ "" := fun hh => hne hh.symm
      rw [hkeyE v1 co1 hk1 ht1, hkeyT v2 co2 t2 hk2 ht2 h2, hcid]
      intro hcontra
      have hlen := congrArg String.length hcontra
      rw [String.length_append, String.length_append, e2] at hlen
      omega
    · by_cases h2 : t2 = ""
      · subst h2
        rw [hkeyT v1 co1 t1 hk1 ht1 h1, hkeyE v2 co2 hk2 ht2, hcid]
        intro hcontra
        have hlen := congrArg String.length hcontra
        rw [String.length_append, String.length_append, e2] at hlen
        omega
      · rw [hkeyT v1 co1 t1 hk1 ht1 h1, hkeyT v2 co2 t2 hk2 ht2 h2, hcid]
        intro hcontra
        exact hne (string_append_left_cancel hcontra)

/-- C4 witness: the key equations applied at concrete candidates. -/
theorem resolveKey_spec_witness :
    resolveKey
      { key := some "my-key", tag := none, componentOptions := none,
        componentInstance := 1, keepAlive := false }
      { ctorCid := 5, ctorName := none, tag := some "foo" } = "my-key" ∧
    resolveKey
      { key := none, tag := none, componentOptions := none,
        componentInstance := 1, keepAlive := false }
      { ctorCid := 5, ctorName := none, tag := some "foo" } = "5" ++ "::" ++ "foo" ∧
    resolveKey
      { key := none, tag := none, componentOptions := none,
        componentInstance := 1, keepAlive := false }
      { ctorCid := 5, ctorName := none, tag := none } = "5" ∧
    resolveKey
      { key := none, tag := none, componentOptions := none,
        componentInstance := 1, keepAlive := false }
      { ctorCid := 5, ctorName := none, tag := some "foo" } ≠
    resolveKey
      { key := none, tag := none, componentOptions := none,
        componentInstance := 2, keepAlive := false }
      { ctorCid := 5, ctorName := none, tag := some "bar" } :=
  ⟨resolveKey_spec.1 _ _ "my-key" rfl,
   resolveKey_spec.2.1 _ _ "foo" rfl rfl (by decide),
   resolveKey_spec.2.2.1 _ _ rfl rfl,
   resolveKey_spec.2.2.2 _ _ _ _ "foo" "bar" rfl rfl rfl rfl rfl (by decide)⟩

/-- C9: a render pass whose candidate fails the filter check returns the
candidate unmodified (instance not substituted, keep-alive flag untouched) and
leaves the cache store, the key sequence, and the pending-cache slot
unchanged. -/
theorem render_blocked_frame :
    ∀ (incl excl : Option Pattern) (st : KAState) (v : VNode)
      (co : ComponentOptions),
      v.componentOptions = some co →
      filterBlocked incl excl (getComponentName (some co)) = true →
      (render incl excl st (some v)).1.cache = st.cache ∧
      (render incl excl st (some v)).1.keys = st.keys ∧
      (render incl excl st (some v)).1.vnodeToCache = st.vnodeToCache ∧
      (render incl excl st (some v)).1.keyToCache = st.keyToCache ∧
      (render incl excl st (some v)).1.destroyedLog = st.destroyedLog ∧
      (render incl excl st (some v)).2 = some v := by
  intro incl excl st v co hco hb
  rw [render_eq_blocked incl excl st v co hco hb]
  exact ⟨rfl, rfl, rfl, rfl, rfl, rfl⟩

/-- C9 witness: a candidate named "A" blocked by the include list `["X"]`. -/
theorem render_blocked_frame_witness :
    (render (some (.arr ["X"])) none filterState (some lruVA)).1.cache =
      filterState.cache ∧
    (render (some (.arr ["X"])) none filterState (some lruVA)).1.keys =
      filterState.keys ∧
    (render (some (.arr ["X"])) none filterState (some lruVA)).1.vnodeToCache =
      filterState.vnodeToCache ∧
    (render (some (.arr ["X"])) none filterState (some lruVA)).1.keyToCache =
      filterState.keyToCache ∧
    (render (some (.arr ["X"])) none filterState (some lruVA)).1.destroyedLog =
      filterState.destroyedLog ∧
    (render (some (.arr ["X"])) none filterState (some lruVA)).2 = some lruVA :=
  render_blocked_frame (some (.arr ["X"])) none filterState lruVA
    { ctorCid := 1, ctorName := some "A", tag := none } (by decide) (by decide)

/-- C1 counterexample: a cache entry holding the instance that is currently on
screen, recorded under a tag different from the current vnode's tag, is
destroyed by `pruneCacheEntry` — the guard compares tags, not instances, so
the destruction call is not skipped although the victim's instance is the
currently active one. -/
theorem pruneCacheEntry_active_destroyed_cex :
    cacheGet [("k", some activeEntry)] "k" = some activeEntry ∧
    activeEntry.componentInstance = activeCurrent.componentInstance ∧
    (pruneCacheEntry [("k", some activeEntry)] "k" ["k"]
      (some activeCurrent)).2.2 = [activeCurrent.componentInstance] := by decide

/-- Equation: `pruneCacheEntry` unfolded. -/
theorem pruneCacheEntry_eq (cache : Cache) (key : String) (keys : List String)
    (cur : Option VNode) :
    pruneCacheEntry cache key keys cur =
      (cacheSet cache key none, keys.erase key,
        match cacheGet cache key with
        | some e => if destroyGuard e cur then [e.componentInstance] else []
        | none => []) := rfl

/-- C1 (amended): when a current vnode is supplied and the victim entry's
recorded tag equals the current vnode's tag — which is how the code
identifies "the instance presently on screen" — the destruction call is
skipped, while the entry is still removed from the store and the key
sequence. -/
theorem pruneCacheEntry_skips_matching_tag :
    ∀ (cache : Cache) (key : String) (keys : List String) (cur : VNode)
      (e : CacheEntry), cacheGet cache key = some e → e.tag = cur.tag →
      (pruneCacheEntry cache key keys (some cur)).2.2 = [] ∧
      cacheGet (pruneCacheEntry cache key keys (some cur)).1 key = none ∧
      (pruneCacheEntry cache key keys (some cur)).2.1 = keys.erase key := by
  intro cache key keys cur e hg ht
  rw [pruneCacheEntry_eq, hg]
  dsimp only
  have hguard : destroyGuard e (some cur) = false := by
    simp [destroyGuard, ht]
  rw [hguard]
  exact ⟨rfl, cacheGet_cacheSet_self _ _ _, rfl⟩

/-- C1 (amended) witness: a victim entry whose tag equals the current vnode's
tag is removed without a destroy call. -/
theorem pruneCacheEntry_skips_matching_tag_witness :
    (pruneCacheEntry [("k", some entA)] "k" ["k"]
      (some { key := none, tag := some "tA", componentOptions := none,
              componentInstance := 99, keepAlive := true })).2.2 = [] ∧
    cacheGet (pruneCacheEntry [("k", some entA)] "k" ["k"]
      (some { key := none, tag := some "tA", componentOptions := none,
              componentInstance := 99, keepAlive := true })).1 "k" = none ∧
    (pruneCacheEntry [("k", some entA)] "k" ["k"]
      (some { key := none, tag := some "tA", componentOptions := none,
              componentInstance := 99, keepAlive := true })).2.1 =
      ["k"].erase "k" :=
  pruneCacheEntry_skips_matching_tag _ _ _ _ entA (by decide) (by decide)

/-- C2: with `max = 3`, after admitting A, B, C and a lookup hit on A, the key
sequence is `[B, C, A]` (B least recently used); admitting D then evicts
exactly B — its key is gone, its instance is the only one destroyed — leaving
A, C, D live in the store. Keys are the constructor cids `"1"`–`"4"`,
instances `11`–`14`. -/
theorem lru_eviction_spec :
    lruPre.keys = ["2", "3", "1"] ∧
    lruRun.keys = ["3", "1", "4"] ∧
    cacheGet lruRun.cache "2" = none ∧
    cacheGet lruRun.cache "1" =
      some { name := some "A", tag := some "tag-A", componentInstance := 11 } ∧
    cacheGet lruRun.cache "3" =
      some { name := some "C", tag := some "tag-C", componentInstance := 13 } ∧
    cacheGet lruRun.cache "4" =
      some { name := some "D", tag := some "tag-D", componentInstance := 14 } ∧
    lruRun.destroyedLog = [12] := by decide

/-- The capacity test never fires on a single key (a JS-falsy `max` of `0`
disables the bound, and `1 > m` needs `m = 0`). -/
theorem maxExceeded_one (maxN : Option Nat) : maxExceeded maxN 1 = false := by
  cases maxN with
  | none => rfl
  | some m =>
    simp only [maxExceeded, Bool.and_eq_false_iff]
    by_cases h : m = 0
    · left; simp [h]
    · right; simp; omega

/-- The admit step always leaves no pending slot behind. -/
theorem cacheVNode_clears_pending (maxN : Option Nat) (cur : Option VNode)
    (st : KAState) : (cacheVNode maxN cur st).vnodeToCache = none := by
  unfold cacheVNode
  cases h : st.vnodeToCache with
  | none => exact h
  | some v =>
    dsimp only
    split <;> rfl

/-- The admit step records the pending vnode's entry in the store under
`keyToCache` (the possible capacity eviction removes the oldest key, which is
a different key whenever `keyToCache` is fresh). -/
theorem cacheVNode_admits (maxN : Option Nat) (cur : Option VNode)
    (st : KAState) (v : VNode) (h : st.vnodeToCache = some v)
    (hk : st.keyToCache ∉ st.keys) :
    cacheGet (cacheVNode maxN cur st).cache st.keyToCache =
      some { name := getComponentName v.componentOptions, tag := v.tag,
             componentInstance := v.componentInstance } := by
  unfold cacheVNode
  rw [h]
  dsimp only
  by_cases hm : maxExceeded maxN (st.keys ++ [st.keyToCache]).length
  · rw [if_pos hm]
    dsimp only
    cases hkeys : st.keys with
    | nil =>
      rw [hkeys] at hm
      simp only [List.nil_append, List.length_singleton] at hm
      rw [maxExceeded_one] at hm
      exact absurd hm (by simp)
    | cons a t =>
      rw [pruneCacheEntry_eq]
      dsimp only [List.cons_append, List.headD]
      have hne : st.keyToCache ≠ a := by
        intro hh
        apply hk
        rw [hkeys, hh]
        exact List.mem_cons_self a t
      rw [cacheGet_cacheSet_ne _ _ _ _ hne]
      exact cacheGet_cacheSet_self _ _ _
  · rw [if_neg hm]
    dsimp only
    exact cacheGet_cacheSet_self _ _ _

/-- C7: a cache miss during a render pass does not modify the store, the key
sequence or the destroy log — it only records the pending-cache slot — and
the post-mount/post-update signal (`cacheVNode`) admits the pending entry into
the store (running the capacity check) and clears the pending slot. -/
theorem render_miss_defers_then_admits :
    (∀ (incl excl : Option Pattern) (st : KAState) (v : VNode)
      (co : ComponentOptions),
      v.componentOptions = some co →
      filterBlocked incl excl (getComponentName (some co)) = false →
      cacheGet st.cache (resolveKey v co) = none →
      (render incl excl st (some v)).1.cache = st.cache ∧
      (render incl excl st (some v)).1.keys = st.keys ∧
      (render incl excl st (some v)).1.destroyedLog = st.destroyedLog ∧
      (render incl excl st (some v)).1.vnodeToCache =
        some { v with keepAlive := true } ∧
      (render incl excl st (some v)).1.keyToCache = resolveKey v co) ∧
    (∀ (maxN : Option Nat) (cur : Option VNode) (st : KAState) (v : VNode),
      st.vnodeToCache = some v →
      (cacheVNode maxN cur st).vnodeToCache = none ∧
      (st.keyToCache ∉ st.keys →
        cacheGet (cacheVNode maxN cur st).cache st.keyToCache =
          some { name := getComponentName v.componentOptions, tag := v.tag,
                 componentInstance := v.componentInstance })) := by
  constructor
  · intro incl excl st v co hco hb hg
    rw [render_eq_miss incl excl st v co hco hb hg]
    exact ⟨rfl, rfl, rfl, rfl, rfl⟩
  · intro maxN cur st v h
    exact ⟨cacheVNode_clears_pending maxN cur st,
      fun hk => cacheVNode_admits maxN cur st v h hk⟩

/-- C7 witness: a miss on A from the empty state, then an admit of the
recorded pending slot. -/
theorem render_miss_defers_then_admits_witness :
    ((render none none initialState (some lruVA)).1.cache =
        initialState.cache ∧
      (render none none initialState (some lruVA)).1.keys =
        initialState.keys ∧
      (render none none initialState (some lruVA)).1.destroyedLog =
        initialState.destroyedLog ∧
      (render none none initialState (some lruVA)).1.vnodeToCache =
        some { lruVA with keepAlive := true } ∧
      (render none none initialState (some lruVA)).1.keyToCache =
        resolveKey lruVA { ctorCid := 1, ctorName := some "A", tag := none }) ∧
    (cacheVNode (some 3) none
        { cache := [], keys := [], vnodeToCache := some lruVA,
          keyToCache := "1", destroyedLog := [] }).vnodeToCache = none ∧
    cacheGet (cacheVNode (some 3) none
        { cache := [], keys := [], vnodeToCache := some lruVA,
          keyToCache := "1", destroyedLog := [] }).cache "1" =
      some { name := getComponentName lruVA.componentOptions,
             tag := lruVA.tag, componentInstance := lruVA.componentInstance } := by
  refine ⟨render_miss_defers_then_admits.1 none none initialState lruVA
      { ctorCid := 1, ctorName := some "A", tag := none } (by decide)
      (by decide) (by decide), ?_, ?_⟩
  · exact (render_miss_defers_then_admits.2 (some 3) none
      { cache := [], keys := [], vnodeToCache := some lruVA,
        keyToCache := "1", destroyedLog := [] } lruVA (by decide)).1
  · exact (render_miss_defers_then_admits.2 (some 3) none
      { cache := [], keys := [], vnodeToCache := some lruVA,
        keyToCache := "1", destroyedLog := [] } lruVA (by decide)).2
      (by decide)

/-- C5: replacing the include/exclude specification prunes exactly the live
entries whose truthy declared name fails the new effective predicate `f`:
such entries are removed, entries whose name passes are untouched (store and
key sequence), entries with a falsy name are untouched, and concretely, with
live entries named A, B, C and the include list replaced by `["A","C"]`,
exactly the entry named B is pruned (and its instance destroyed). -/
theorem pruneCache_filter_spec :
    (∀ (f : String → Bool) (cur : Option VNode) (st : KAState) (k : String)
      (e : CacheEntry) (n : String),
      cacheGet st.cache k = some e → e.name = some n → n ≠ "" → f n = false →
      cacheGet (pruneCache f cur st).cache k = none) ∧
    (∀ (f : String → Bool) (cur : Option VNode) (st : KAState) (k : String)
      (e : CacheEntry) (n : String),
      cacheGet st.cache k = some e → e.name = some n → f n = true →
      cacheGet (pruneCache f cur st).cache k = some e ∧
      (k ∈ st.keys → k ∈ (pruneCache f cur st).keys)) ∧
    (∀ (f : String → Bool) (cur : Option VNode) (st : KAState) (k : String)
      (e : CacheEntry),
      cacheGet st.cache k = some e → strTruthy e.name = false →
      cacheGet (pruneCache f cur st).cache k = some e ∧
      (k ∈ st.keys → k ∈ (pruneCache f cur st).keys)) ∧
    ((onIncludeChanged (.arr ["A", "C"]) none filterState).cache =
      [("a", some entA), ("b", none), ("c", some entC)] ∧
     (onIncludeChanged (.arr ["A", "C"]) none filterState).keys = ["a", "c"] ∧
     (onIncludeChanged (.arr ["A", "C"]) none filterState).destroyedLog = [22]) := by
  refine ⟨?_, ?_, ?_, by decide, by decide, by decide⟩
  · intro f cur st k e n hg hn hne hf
    have ht : pruneTarget f e = true := by
      simp [pruneTarget, hn, hne, hf]
    exact pruneFold_prune f cur (st.cache.map Prod.fst) (st.cache, st.keys, [])
      k e hg ht (mem_keys_of_cacheGet st.cache k e hg)
  · intro f cur st k e n hg hn hf
    have ht : pruneTarget f e = false := by
      simp [pruneTarget, hn, hf]
    exact pruneFold_keep f cur (st.cache.map Prod.fst) (st.cache, st.keys, [])
      k e hg ht
  · intro f cur st k e hg hn
    have ht : pruneTarget f e = false := by
      cases he : e.name with
      | none => simp [pruneTarget, he]
      | some n =>
        rw [he] at hn
        simp [strTruthy] at hn
        simp [pruneTarget, he, hn]
    exact pruneFold_keep f cur (st.cache.map Prod.fst) (st.cache, st.keys, [])
      k e hg ht

/-- C5 witness: the general prune/keep facts applied in the concrete
include-replacement scenario. -/
theorem pruneCache_filter_spec_witness :
    cacheGet (pruneCache (fun name => matchesPattern (.arr ["A", "C"]) name)
      none filterState).cache "b" = none ∧
    cacheGet (pruneCache (fun name => matchesPattern (.arr ["A", "C"]) name)
      none filterState).cache "a" = some entA := by
  constructor
  · exact pruneCache_filter_spec.1
      (fun name => matchesPattern (.arr ["A", "C"]) name) none filterState
      "b" entB "B" (by decide) (by decide) (by decide) (by decide)
  · exact (pruneCache_filter_spec.2.1
      (fun name => matchesPattern (.arr ["A", "C"]) name) none filterState
      "a" entA "A" (by decide) (by decide) (by decide)).1

/-- C10: filter-driven pruning only ever touches entries with a declared
name: a live entry whose name is absent survives any prune pass untouched,
in the store and in the key sequence, whatever the new pattern is. -/
theorem pruneCache_preserves_unnamed :
    ∀ (f : String → Bool) (cur : Option VNode) (st : KAState) (k : String)
      (e : CacheEntry), cacheGet st.cache k = some e → e.name = none →
      cacheGet (pruneCache f cur st).cache k = some e ∧
      (k ∈ st.keys → k ∈ (pruneCache f cur st).keys) := by
  intro f cur st k e hg hn
  have ht : pruneTarget f e = false := by simp [pruneTarget, hn]
  exact pruneFold_keep f cur (st.cache.map Prod.fst) (st.cache, st.keys, [])
    k e hg ht

/-- C10 witness: an unnamed entry survives a prune pass whose filter rejects
every name. -/
theorem pruneCache_preserves_unnamed_witness :
    cacheGet (pruneCache (fun _ => false) none unnamedState).cache "u" =
      some entU ∧
    "u" ∈ (pruneCache (fun _ => false) none unnamedState).keys := by
  have h := pruneCache_preserves_unnamed (fun _ => false) none unnamedState
    "u" entU (by decide) (by decide)
  exact ⟨h.1, h.2 (by decide)⟩

/-- C6: the `destroyed` hook destroys every held entry unconditionally —
exactly one destroy call per live entry, in cache order — and afterwards no
key is present in the store and the key sequence is empty. -/
theorem destroyedHook_spec :
    ∀ st : KAState,
      (st.cache.map Prod.fst).Nodup → st.keys.Nodup →
      (∀ k, k ∈ st.keys → (cacheGet st.cache k).isSome) →
      (∀ k, cacheGet (destroyedHook st).cache k = none) ∧
      (destroyedHook st).keys = [] ∧
      (destroyedHook st).destroyedLog =
        st.destroyedLog ++ (st.cache.map Prod.fst).filterMap
          (fun k => (cacheGet st.cache k).map (fun e => e.componentInstance)) := by
  intro st hc hk hlive
  refine ⟨?_, ?_, ?_⟩
  · intro k
    exact destroyedFold_cache (st.cache.map Prod.fst) (st.cache, st.keys, [])
      (fun k' e' hg' => mem_keys_of_cacheGet st.cache k' e' hg') k
  · show ((st.cache.map Prod.fst).foldl destroyedStep
      (st.cache, st.keys, [])).2.1 = []
    rw [destroyedFold_keys]
    refine foldl_erase_eq_nil _ _ hk (fun x hx => ?_)
    obtain ⟨e, he⟩ := Option.isSome_iff_exists.mp (hlive x hx)
    exact mem_keys_of_cacheGet st.cache x e he
  · show st.destroyedLog ++ ((st.cache.map Prod.fst).foldl destroyedStep
      (st.cache, st.keys, [])).2.2 = _
    rw [destroyedFold_log _ _ hc]
    simp

/-- C6 witness: teardown of the three-entry state destroys instances 21, 22,
23 once each, empties the key sequence, and leaves every key not present. -/
theorem destroyedHook_spec_witness :
    cacheGet (destroyedHook filterState).cache "a" = none ∧
    cacheGet (destroyedHook filterState).cache "b" = none ∧
    cacheGet (destroyedHook filterState).cache "c" = none ∧
    (destroyedHook filterState).keys = [] ∧
    (destroyedHook filterState).destroyedLog =
      filterState.destroyedLog ++ (filterState.cache.map Prod.fst).filterMap
        (fun k => (cacheGet filterState.cache k).map
          (fun e => e.componentInstance)) := by
  have h := destroyedHook_spec filterState (by decide) (by decide)
    (by
      intro k hk
      fin_cases hk <;> decide)
  exact ⟨h.1 "a", h.1 "b", h.1 "c", h.2.1, h.2.2⟩

/-! ### The reachable-state invariant and the capacity bound -/

/-- Appending a fresh element keeps a key sequence duplicate-free. -/
theorem nodup_append_singleton {l : List String} {a : String}
    (hd : l.Nodup) (ha : a ∉ l) : (l ++ [a]).Nodup := by
  rw [List.nodup_append]
  exact ⟨hd, List.nodup_singleton a, fun x hx hax => ha (by
    simp only [List.mem_singleton] at hax
    exact hax ▸ hx)⟩

/-- Unfolding the capacity test at a successor length. -/
theorem maxExceeded_some (m n : Nat) :
    maxExceeded (some m) n = (m != 0 && decide (n > m)) := rfl

/-- A failed capacity test with a positive bound means the length is within
the bound. -/
theorem le_of_maxExceeded_false {m n : Nat} (hm : 0 < m)
    (h : maxExceeded (some m) n = false) : n ≤ m := by
  rw [maxExceeded_some] at h
  rcases Bool.and_eq_false_iff.mp h with h1 | h2
  · exact absurd h1 (by simp; omega)
  · have := of_decide_eq_false h2
    omega

/-- A successful capacity test means the length exceeds the bound. -/
theorem lt_of_maxExceeded_true {m n : Nat}
    (h : maxExceeded (some m) n = true) : m < n := by
  rw [maxExceeded_some] at h
  simp only [Bool.and_eq_true, decide_eq_true_eq] at h
  exact h.2

/-- The admit step preserves the structural invariant when the pending key is
fresh. -/
theorem cacheVNode_good (m : Nat) (cur : Option VNode) (st : KAState)
    (v : VNode) (hm : 0 < m) (hpend : st.vnodeToCache = some v)
    (hnodup : st.keys.Nodup)
    (hmem : ∀ k, k ∈ st.keys ↔ (cacheGet st.cache k).isSome)
    (hlen : st.keys.length ≤ m)
    (hfresh : cacheGet st.cache st.keyToCache = none) :
    GoodState m (cacheVNode (some m) cur st) := by
  have hkfresh : st.keyToCache ∉ st.keys := by
    intro hh
    have h2 := (hmem st.keyToCache).mp hh
    rw [hfresh] at h2
    simp at h2
  unfold cacheVNode
  rw [hpend]
  dsimp only
  by_cases hov : maxExceeded (some m) (st.keys ++ [st.keyToCache]).length = true
  · rw [if_pos hov]
    cases hkeys : st.keys with
    | nil =>
      rw [hkeys] at hov
      simp only [List.nil_append, List.length_singleton] at hov
      rw [maxExceeded_one] at hov
      exact absurd hov (by simp)
    | cons a t =>
      rw [pruneCacheEntry_eq]
      dsimp only [List.cons_append, List.headD]
      rw [hkeys] at hkfresh hnodup hmem hlen
      have hka : st.keyToCache ≠ a := by
        intro hh
        exact hkfresh (hh ▸ List.mem_cons_self a t)
      have hknt : st.keyToCache ∉ t := by
        intro hh
        exact hkfresh (List.mem_cons_of_mem a hh)
      have hat : a ∉ t := (List.nodup_cons.mp hnodup).1
      have htn : t.Nodup := (List.nodup_cons.mp hnodup).2
      have herase : (a :: (t ++ [st.keyToCache])).erase a = t ++ [st.keyToCache] :=
        List.erase_cons_head a _
      refine ⟨?_, ?_, ?_, rfl⟩
      · show ((a :: (t ++ [st.keyToCache])).erase a).Nodup
        rw [herase]
        exact nodup_append_singleton htn hknt
      · intro k
        show k ∈ (a :: (t ++ [st.keyToCache])).erase a ↔ _
        rw [herase]
        by_cases hk : k = a
        · subst hk
          constructor
          · intro hh
            rcases List.mem_append.mp hh with h1 | h1
            · exact absurd h1 hat
            · simp only [List.mem_singleton] at h1
              exact absurd h1.symm hka
          · intro hh
            rw [cacheGet_cacheSet_self] at hh
            simp at hh
        · rw [cacheGet_cacheSet_ne _ _ _ _ hk]
          by_cases hk2 : k = st.keyToCache
          · subst hk2
            rw [cacheGet_cacheSet_self]
            simp
          · rw [cacheGet_cacheSet_ne _ _ _ _ hk2]
            have h3 := hmem k
            constructor
            · intro hh
              rcases List.mem_append.mp hh with h1 | h1
              · exact h3.mp (List.mem_cons_of_mem a h1)
              · simp only [List.mem_singleton] at h1
                exact absurd h1 hk2
            · intro hh
              have h4 := h3.mpr hh
              rcases List.mem_cons.mp h4 with h5 | h5
              · exact absurd h5 hk
              · exact List.mem_append.mpr (Or.inl h5)
      · show ((a :: (t ++ [st.keyToCache])).erase a).length ≤ m
        rw [herase]
        simp only [List.length_append, List.length_singleton]
        simp only [List.length_cons] at hlen
        omega
  · rw [if_neg hov]
    have hle : st.keys.length + 1 ≤ m := by
      refine le_of_maxExceeded_false hm ?_
      have hov2 : maxExceeded (some m)
          (st.keys ++ [st.keyToCache]).length = false := by
        cases hx : maxExceeded (some m) (st.keys ++ [st.keyToCache]).length
        · rfl
        · exact absurd hx hov
      simpa [List.length_append] using hov2
    refine ⟨?_, ?_, ?_, rfl⟩
    · exact nodup_append_singleton hnodup hkfresh
    · intro k
      by_cases hk : k = st.keyToCache
      · subst hk
        rw [cacheGet_cacheSet_self]
        simp
      · rw [cacheGet_cacheSet_ne _ _ _ _ hk]
        constructor
        · intro hh
          rcases List.mem_append.mp hh with h1 | h1
          · exact (hmem k).mp h1
          · simp only [List.mem_singleton] at h1
            exact absurd h1 hk
        · intro hh
          exact List.mem_append.mpr (Or.inl ((hmem k).mpr hh))
    · simpa [List.length_append] using hle

/-- A full host cycle preserves the structural invariant. -/
theorem renderThenCache_good (m : Nat) (incl excl : Option Pattern)
    (st : KAState) (v : Option VNode) (hm : 0 < m) (hgood : GoodState m st) :
    GoodState m (renderThenCache incl excl (some m) st v) := by
  obtain ⟨hnodup, hmem, hlen, hpend⟩ := hgood
  unfold renderThenCache
  cases v with
  | none =>
    rw [render_eq_no_vnode]
    dsimp only
    rw [cacheVNode_eq_no_pending _ _ _ hpend]
    exact ⟨hnodup, hmem, hlen, hpend⟩
  | some v =>
    cases hco : v.componentOptions with
    | none =>
      rw [render_eq_no_co incl excl st v hco]
      dsimp only
      rw [cacheVNode_eq_no_pending _ _ _ hpend]
      exact ⟨hnodup, hmem, hlen, hpend⟩
    | some co =>
      by_cases hb : filterBlocked incl excl (getComponentName (some co)) = true
      · rw [render_eq_blocked incl excl st v co hco hb]
        dsimp only
        rw [cacheVNode_eq_no_pending _ _ _ hpend]
        exact ⟨hnodup, hmem, hlen, hpend⟩
      · have hb2 : filterBlocked incl excl (getComponentName (some co)) = false := by
          cases hx : filterBlocked incl excl (getComponentName (some co))
          · rfl
          · exact absurd hx hb
        cases hg : cacheGet st.cache (resolveKey v co) with
        | some e =>
          rw [render_eq_hit incl excl st v co e hco hb2 hg]
          dsimp only
          rw [cacheVNode_eq_no_pending _ _ _ (show KAState.vnodeToCache
            { st with keys := (st.keys.erase (resolveKey v co)) ++
              [resolveKey v co] } = none from hpend)]
          have hkmem : resolveKey v co ∈ st.keys := by
            refine (hmem (resolveKey v co)).mpr ?_
            rw [hg]
            rfl
          have hknotin : resolveKey v co ∉ st.keys.erase (resolveKey v co) := by
            intro hh
            exact ((hnodup.mem_erase_iff).mp hh).1 rfl
          refine ⟨?_, ?_, ?_, hpend⟩
          · exact nodup_append_singleton (hnodup.erase _) hknotin
          · intro k
            by_cases hk : k = resolveKey v co
            · subst hk
              refine iff_of_true (List.mem_append.mpr (Or.inr ?_)) ?_
              · exact List.mem_singleton.mpr rfl
              · rw [hg]; rfl
            · constructor
              · intro hh
                rcases List.mem_append.mp hh with h1 | h1
                · exact (hmem k).mp (((hnodup.mem_erase_iff).mp h1).2)
                · simp only [List.mem_singleton] at h1
                  exact absurd h1 hk
              · intro hh
                refine List.mem_append.mpr (Or.inl ?_)
                exact (hnodup.mem_erase_iff).mpr ⟨hk, (hmem k).mpr hh⟩
          · show ((st.keys.erase (resolveKey v co)) ++
              [resolveKey v co]).length ≤ m
            rw [List.length_append, List.length_erase_of_mem hkmem]
            have hpos : 0 < st.keys.length := List.length_pos_of_mem hkmem
            simp only [List.length_singleton]
            omega
        | none =>
          rw [render_eq_miss incl excl st v co hco hb2 hg]
          dsimp only
          exact cacheVNode_good m _ _ { v with keepAlive := true } hm rfl
            hnodup hmem hlen hg

/-- Every sequence of host cycles starting from the freshly created state
stays within the structural invariant. -/
theorem foldl_renderThenCache_good (m : Nat) (incl excl : Option Pattern)
    (vs : List (Option VNode)) (st : KAState) (hm : 0 < m)
    (hgood : GoodState m st) :
    GoodState m (vs.foldl (renderThenCache incl excl (some m)) st) := by
  induction vs generalizing st with
  | nil => exact hgood
  | cons v rest ih => exact ih _ (renderThenCache_good m incl excl st v hm hgood)

/-- The freshly created state satisfies the structural invariant. -/
theorem initialState_good (m : Nat) : GoodState m initialState := by
  refine ⟨List.nodup_nil, ?_, Nat.zero_le m, rfl⟩
  intro k
  simp [initialState, cacheGet]

/-- The head of a key sequence with a freshly pushed key is a member. -/
theorem headD_mem_of_ne_nil {l : List String} (d : String) (h : l ≠ []) :
    l.headD d ∈ l := by
  cases l with
  | nil => exact absurd rfl h
  | cons a t => exact List.mem_cons_self a t

/-- C3: with a positive `max`, an admit never leaves more than `max` live
keys (the check compares the post-insertion count against `max` and evicts
the single least-recently-used key on overflow, trimming back to exactly
`max`), and along every sequence of host cycles from the created state the
live count never exceeds `max` and every live entry's key is tracked. -/
theorem capacity_invariant_spec :
    (∀ (m : Nat) (cur : Option VNode) (st : KAState), 0 < m →
      st.keys.length ≤ m → (cacheVNode (some m) cur st).keys.length ≤ m) ∧
    (∀ (m : Nat) (cur : Option VNode) (st : KAState), 0 < m →
      st.vnodeToCache.isSome → st.keys.length = m →
      (cacheVNode (some m) cur st).keys.length = m) ∧
    (∀ (m : Nat) (incl excl : Option Pattern) (vs : List (Option VNode)),
      0 < m →
      (vs.foldl (renderThenCache incl excl (some m))
        initialState).keys.length ≤ m ∧
      (∀ k, (cacheGet (vs.foldl (renderThenCache incl excl (some m))
          initialState).cache k).isSome →
        k ∈ (vs.foldl (renderThenCache incl excl (some m))
          initialState).keys)) := by
  have hstep : ∀ (m : Nat) (cur : Option VNode) (st : KAState) (v : VNode),
      0 < m → st.vnodeToCache = some v →
      (st.keys.length ≤ m → (cacheVNode (some m) cur st).keys.length ≤ m) ∧
      (st.keys.length = m → (cacheVNode (some m) cur st).keys.length = m) := by
    intro m cur st v hm hpend
    unfold cacheVNode
    rw [hpend]
    dsimp only
    by_cases hov : maxExceeded (some m) (st.keys ++ [st.keyToCache]).length = true
    · rw [if_pos hov]
      rw [pruneCacheEntry_eq]
      dsimp only
      have hne : st.keys ++ [st.keyToCache] ≠ [] := by simp
      have hmemh := headD_mem_of_ne_nil "" hne
      rw [List.length_erase_of_mem hmemh]
      simp only [List.length_append, List.length_singleton]
      constructor
      · intro hlen
        omega
      · intro hlen
        omega
    · rw [if_neg hov]
      have hov2 : maxExceeded (some m)
          (st.keys ++ [st.keyToCache]).length = false := by
        cases hx : maxExceeded (some m) (st.keys ++ [st.keyToCache]).length
        · rfl
        · exact absurd hx hov
      have hle : st.keys.length + 1 ≤ m := by
        refine le_of_maxExceeded_false hm ?_
        simpa [List.length_append] using hov2
      simp only [List.length_append, List.length_singleton]
      constructor
      · intro _
        omega
      · intro hlen
        have : maxExceeded (some m) (st.keys ++ [st.keyToCache]).length = true := by
          rw [maxExceeded_some]
          simp only [List.length_append, List.length_singleton, hlen]
          simp
          omega
        rw [this] at hov2
        exact absurd hov2 (by simp)
  refine ⟨?_, ?_, ?_⟩
  · intro m cur st hm hlen
    cases hpend : st.vnodeToCache with
    | none =>
      rw [cacheVNode_eq_no_pending _ _ _ hpend]
      exact hlen
    | some v => exact (hstep m cur st v hm hpend).1 hlen
  · intro m cur st hm hpend hlen
    obtain ⟨v, hv⟩ := Option.isSome_iff_exists.mp hpend
    exact (hstep m cur st v hm hv).2 hlen
  · intro m incl excl vs hm
    have hgood := foldl_renderThenCache_good m incl excl vs initialState hm
      (initialState_good m)
    exact ⟨hgood.2.2.1, fun k hk => (hgood.2.1 k).mpr hk⟩

/-- C3 witness: the capacity facts at `max = 3` — the LRU scenario state, a
full three-key state with a pending fourth admit, and a concrete run of five
host cycles. -/
theorem capacity_invariant_spec_witness :
    (cacheVNode (some 3) none lruPre).keys.length ≤ 3 ∧
    (cacheVNode (some 3) none
      { filterState with vnodeToCache := some lruVD,
                         keyToCache := "4" }).keys.length = 3 ∧
    ([some lruVA, some lruVB, some lruVC, some lruVA, some lruVD].foldl
      (renderThenCache none none (some 3)) initialState).keys.length ≤ 3 ∧
    "4" ∈ ([some lruVA, some lruVB, some lruVC, some lruVA, some lruVD].foldl
      (renderThenCache none none (some 3)) initialState).keys := by
  refine ⟨?_, ?_, ?_, ?_⟩
  · exact capacity_invariant_spec.1 3 none lruPre (by decide) (by decide)
  · exact capacity_invariant_spec.2.1 3 none
      { filterState with vnodeToCache := some lruVD, keyToCache := "4" }
      (by decide) (by decide) (by decide)
  · exact (capacity_invariant_spec.2.2 3 none none
      [some lruVA, some lruVB, some lruVC, some lruVA, some lruVD]
      (by decide)).1
  · exact (capacity_invariant_spec.2.2 3 none none
      [some lruVA, some lruVB, some lruVC, some lruVA, some lruVD]
      (by decide)).2 "4" (by decide)

end KeepAlive
